import Mathlib

/-!
Shallow embedding of the Unused-Dependency-Cleaner core
(src/analyzer.ts, src/cleaner.ts, src/config.ts, src/cli.ts).

Strings are Lean `String`s; the JavaScript string operations the code uses
(`split`, `startsWith`, first-occurrence `replace`, `trim`) are re-implemented
structurally over `String.data` so that every definition evaluates by kernel
reduction.  JS `Set<string>` is modelled as an insertion-ordered duplicate-free
`List String` with `setAdd`.  `path.isAbsolute` is modelled as the POSIX check
(the specifier begins with `/`).  External collaborators (fs, @babel parsing,
glob, JSON.parse) appear only through their results: a source file is its path
plus either the list of module-specifier strings its AST traversal yields or a
parse-error message; the manifest is the parsed package.json object.
-/

namespace UDC

/-- JS `s.split(sep)` for a single-character separator, on the character list.
`"".split(c)` is `[""]`, and separators at the ends produce empty segments,
exactly as in JavaScript. -/
def splitChar (sep : Char) : List Char → List (List Char)
  | [] => [[]]
  | c :: cs =>
    match splitChar sep cs with
    | [] => if c = sep then [[], []] else [[c]]
    | seg :: segs => if c = sep then [] :: seg :: segs else (c :: seg) :: segs

/-- JS `s.split(sep)` for a single-character separator, as strings. -/
def jsSplit (s : String) (sep : Char) : List String :=
  (splitChar sep s.data).map String.mk

/-- JS `s.startsWith(p)`. -/
def jsStartsWith (s p : String) : Bool :=
  p.data.isPrefixOf s.data

/-- JS `s.replace(pat, rep)` with a single-character pattern: replaces the
FIRST occurrence only, on the character list. -/
def replaceFirstChar (pat : Char) (rep : List Char) : List Char → List Char
  | [] => []
  | c :: cs => if c = pat then rep ++ cs else c :: replaceFirstChar pat rep cs

/-- JS `Set.add`: appends unless already present (insertion order kept). -/
def setAdd (s : List String) (x : String) : List String :=
  if x ∈ s then s else s ++ [x]

/-- The synthetic type-declaration identifier of analyzer.ts line 176: the
`@types/` text prepended to `pkgName` with its first `@` removed and its
first `/` replaced by `__` (JS `replace` with a string pattern rewrites only
the first occurrence). -/
def typesId (pkgName : String) : String :=
  "@types/" ++ String.mk (replaceFirstChar '/' ['_', '_']
    (replaceFirstChar '@' [] pkgName.data))

/-- The canonical package name computed inside `Analyzer.addDependency`
(analyzer.ts lines 156-167): first two `/`-segments for a scoped specifier
when at least two exist, otherwise the whole specifier; first segment for an
unscoped specifier. -/
def pkgNameOf (importPath : String) : String :=
  if jsStartsWith importPath "@" then
    match jsSplit importPath '/' with
    | p0 :: p1 :: _ => p0 ++ "/" ++ p1
    | _ => importPath
  else
    match jsSplit importPath '/' with
    | p0 :: _ => p0
    | [] => importPath

/-- Method `Analyzer.addDependency` (analyzer.ts lines 151-177): skip relative and
absolute specifiers, otherwise add the canonical package name and its
synthetic `@types/...` identifier to the usage set. -/
def addDependency (set : List String) (importPath : String) : List String :=
  if jsStartsWith importPath "." then set
  else if jsStartsWith importPath "/" then set
  else setAdd (setAdd set (pkgNameOf importPath)) (typesId (pkgNameOf importPath))

/-- A source file, as the Usage Set Builder sees it: its path together with
the outcome of parsing and traversing it — either the sequence of
module-specifier strings yielded by the import/require/dynamic-import/re-export
visitors of `findUsedDependencies`, or the parse-error message thrown. -/
structure SourceFile where
  path : String
  parsed : Except String (List String)

/-- The diagnostic `findUsedDependencies` logs for an unparseable file
(analyzer.ts line 110). -/
def parseDiag (filePath msg : String) : String :=
  "Failed to parse " ++ filePath ++ ": " ++ msg ++ ". Usage in this file may be missed."

/-- One iteration of the per-file loop of `findUsedDependencies`
(analyzer.ts lines 61-112): on success every yielded specifier passes through
`addDependency`; on a parse error the file contributes nothing to the set and
a warning naming the file is logged. State is (usage set, log). -/
def scanFile (acc : List String × List String) (f : SourceFile) :
    List String × List String :=
  match f.parsed with
  | .ok refs => (refs.foldl addDependency acc.1, acc.2)
  | .error msg => (acc.1, acc.2 ++ [parseDiag f.path msg])

/-- The per-file accumulation phase of `findUsedDependencies`, before the
cross-cutting heuristics. -/
def scanFiles (files : List SourceFile) : List String × List String :=
  files.foldl scanFile ([], [])

/-- The scope segment of an identifier: the text before its first `/`, as
computed by index 0 of the split at analyzer.ts line 127. -/
def scopeOf (d : String) : String :=
  (jsSplit d '/').headD ""

/-- The framework co-dependency heuristic (analyzer.ts lines 114-119): when
`react` is used, `react-dom` is added. -/
def reactHeuristic (used : List String) : List String :=
  if "react" ∈ used then setAdd used "react-dom" else used

/-- The `usedScopes` set of analyzer.ts lines 124-130: the scope segments of
the used identifiers that begin with `@` (a list with possible repetitions
models the JS Set — only membership and emptiness are consulted). -/
def usedScopesOf (used : List String) : List String :=
  (used.filter fun d => jsStartsWith d "@").map scopeOf

/-- The body of the `Object.keys(deps).forEach` of analyzer.ts lines 138-145:
a declared dependency beginning with `@` whose scope is a used scope is added
to the usage set. -/
def scopeStep (usedScopes : List String) (acc : List String) (p : String × String) :
    List String :=
  if jsStartsWith p.1 "@" ∧ scopeOf p.1 ∈ usedScopes then setAdd acc p.1 else acc

/-- The shared-scope heuristic (analyzer.ts lines 121-146): when any used
scope exists, every declared dependency in a used scope is marked used. -/
def scopeHeuristic (used : List String) (deps : List (String × String)) :
    List String :=
  if (usedScopesOf used).isEmpty then used
  else deps.foldl (scopeStep (usedScopesOf used)) used

/-- The two cross-cutting heuristics of `findUsedDependencies` in their source
order: react first (lines 117-119), shared scope second (lines 121-146). -/
def heuristics (used : List String) (deps : List (String × String)) :
    List String :=
  scopeHeuristic (reactHeuristic used) deps

/-- Method `Analyzer.findUsedDependencies` (analyzer.ts lines 58-149): per-file
accumulation followed by the heuristics; returns the usage set and the
diagnostics logged. In `analyze` the manifest exists, so the inner
`getDependencies` call yields the same `deps` the caller obtained; it is
passed explicitly here. -/
def findUsedDependencies (files : List SourceFile) (deps : List (String × String)) :
    List String × List String :=
  let (used, log) := scanFiles files
  (heuristics used deps, log)

/-- The dependency sections of a parsed package.json, as the analyzer reads
them (`{...pkg.dependencies}` of an absent section is `{}`, so an absent
section is the empty list here; JSON objects have pairwise-distinct keys). -/
structure Manifest where
  dependencies : List (String × String)
  devDependencies : List (String × String)
  peerDependencies : List (String × String)
  optionalDependencies : List (String × String)

/-- JS object spread of `a` then `b`: keys of `a` in order, taking the value
from `b` where `b` redefines them, then the keys only in `b`, in order. -/
def jsSpreadMerge (a b : List (String × String)) : List (String × String) :=
  (a.map fun p =>
    match b.find? (fun q => q.1 = p.1) with
    | some q => (p.1, q.2)
    | none => p) ++
  b.filter (fun q => a.all fun p => ¬ p.1 = q.1)

/-- The dependency object `Analyzer.getDependencies` builds once the manifest
is read (analyzer.ts lines 39-43): `dependencies`, merged with
`devDependencies` when `checkDevDeps` is set. -/
def depsObject (checkDevDeps : Bool) (pkg : Manifest) : List (String × String) :=
  if checkDevDeps then jsSpreadMerge pkg.dependencies pkg.devDependencies
  else jsSpreadMerge [] pkg.dependencies

/-- A project as the analyzer sees it: the manifest at the root when one
exists, and the source files the glob enumeration supplies. -/
structure Project where
  manifest : Option Manifest
  files : List SourceFile

/-- Method `Analyzer.getDependencies` (analyzer.ts lines 33-44): throws the
error "package.json not found" when no manifest exists at the project root,
otherwise returns the dependency object. -/
def getDependencies (checkDevDeps : Bool) (proj : Project) :
    Except String (List (String × String)) :=
  match proj.manifest with
  | none => .error "package.json not found"
  | some pkg => .ok (depsObject checkDevDeps pkg)

/-- The analyzer options that affect its semantics (`rootDir` only locates the
files already present in `Project`; `verbose` only toggles debug logging). -/
structure AnalyzerOptions where
  checkDevDeps : Bool
  ignore : List String

/-- Interface `DependencyUsage` (analyzer.ts lines 14-18). -/
structure DependencyUsage where
  name : String
  isUsed : Bool
  filesUsedIn : List String
deriving DecidableEq, Repr

/-- Method `Analyzer.analyze` (analyzer.ts lines 179-201): read the declared
dependencies (fatal when the manifest is missing), build the usage set, then
map every declared name to a verdict — ignored names are used with evidence
["(ignored)"], otherwise usage-set membership decides. -/
def analyze (opts : AnalyzerOptions) (proj : Project) :
    Except String (List DependencyUsage) :=
  match getDependencies opts.checkDevDeps proj with
  | .error e => .error e
  | .ok deps =>
    .ok (deps.map fun p =>
      if p.1 ∈ opts.ignore then ⟨p.1, true, ["(ignored)"]⟩
      else ⟨p.1, decide (p.1 ∈ (findUsedDependencies proj.files deps).1), []⟩)

/-- The error path of the `scan` command (cli.ts lines 53-58): a thrown error
is caught and the process exits with code 1; otherwise the action completes
normally (exit code 0). -/
def scanExitCode (opts : AnalyzerOptions) (proj : Project) : Nat :=
  match analyze opts proj with
  | .ok _ => 0
  | .error _ => 1

/-- The synthetic type-package transformation as §4.2 of the specification
words it: strip the LEADING `@` when one is present, replace the internal `/`
with `__`, and add the `@types/` prefix. Stated only to be compared with the
source-derived `typesId`. -/
def specTypesId (c : String) : String :=
  "@types/" ++ String.mk (replaceFirstChar '/' ['_', '_']
    (if jsStartsWith c "@" = true then c.data.tail else c.data))

/-- A parsed package.json as the Cleaner reads and rewrites it: each
dependency section is `none` when its key is absent from the object (all other
keys of the file are untouched by `removeDependencies` and are not modelled;
JSON objects have pairwise-distinct keys). -/
structure PkgJson where
  dependencies : Option (List (String × String))
  devDependencies : Option (List (String × String))
  peerDependencies : Option (List (String × String))
  optionalDependencies : Option (List (String × String))
deriving DecidableEq, Repr

/-- JS truthiness of the version string the section holds for a name, as
tested at cleaner.ts line 32: of the strings, only the empty one is falsy. -/
def truthy (v : String) : Bool := ¬ v = ""

/-- Whether the `forEach` loop of cleaner.ts lines 31-36 deletes the entry
`p`: its name is listed for removal and its value is truthy. -/
def shouldDelete (toRemove : List String) (p : String × String) : Bool :=
  decide (p.1 ∈ toRemove) && truthy p.2

/-- One section pass of `Cleaner.removeDependencies` (cleaner.ts lines 29-42):
an absent section is skipped; otherwise the listed truthy entries are deleted
and, when the object ends up with no keys, the section key itself is deleted. -/
def removeFromSection (toRemove : List String) :
    Option (List (String × String)) → Option (List (String × String))
  | none => none
  | some entries =>
    if (entries.filter fun p => ! shouldDelete toRemove p).isEmpty then none
    else some (entries.filter fun p => ! shouldDelete toRemove p)

/-- Method `Cleaner.removeDependencies` (cleaner.ts lines 19-47) as the manifest
transformation it writes back: an empty removal list returns before touching
anything; otherwise each of the four sections is processed in turn. The backup
copy and the disk write are I/O around this transformation. -/
def removeDependencies (toRemove : List String) (pkg : PkgJson) : PkgJson :=
  if toRemove.isEmpty then pkg
  else
    ⟨removeFromSection toRemove pkg.dependencies,
     removeFromSection toRemove pkg.devDependencies,
     removeFromSection toRemove pkg.peerDependencies,
     removeFromSection toRemove pkg.optionalDependencies⟩

/-- The four (before, after) section pairs of a manifest rewrite, in the order
cleaner.ts lists the section keys. -/
def sectionPairs (a b : PkgJson) :
    List (Option (List (String × String)) × Option (List (String × String))) :=
  [(a.dependencies, b.dependencies), (a.devDependencies, b.devDependencies),
   (a.peerDependencies, b.peerDependencies),
   (a.optionalDependencies, b.optionalDependencies)]

/-- The ASCII part of the whitespace class JS `trim` removes (config entries
are package names, so ASCII suffices). -/
def isJsSpace (c : Char) : Bool :=
  c = ' ' || c = '\t' || c = '\n' || c = '\r' || c = '\x0b' || c = '\x0c'

/-- JS `s.trim()`. -/
def jsTrim (s : String) : String :=
  String.mk (((s.data.dropWhile isJsSpace).reverse.dropWhile isJsSpace).reverse)

/-- The line-separated branch of config.ts lines 22-26: split the file on
newlines, trim each line, keep the non-empty lines that are no `#` comments. -/
def parseIgnoreLines (content : String) : List String :=
  ((jsSplit content '\n').map jsTrim).filter fun l =>
    ¬ l = "" ∧ jsStartsWith l "#" = false

/-- What `loadConfig` finds at one candidate config path, covering every
branch of config.ts lines 16-36: the path does not exist; it is a readable
non-`.json` file with the given text (processed line-wise); it is a readable
`.json` file whose parse succeeded, carrying its `ignore` array when that
field is an array (`none` otherwise); or reading/`JSON.parse` threw, which is
caught, warned about, and skipped. -/
inductive CfgFileState where
  | absent
  | textFile (content : String)
  | jsonIgnore (arr : Option (List String))
  | unreadable

/-- The contribution of one candidate config file to the accumulated ignore
list (config.ts lines 16-36). -/
def applyCfgFile (acc : List String) (st : CfgFileState) : List String :=
  match st with
  | .absent => acc
  | .unreadable => acc
  | .textFile content => acc ++ parseIgnoreLines content
  | .jsonIgnore (some arr) => acc ++ arr
  | .jsonIgnore none => acc

/-- The baseline exemptions of config.ts line 9. -/
def defaultIgnore : List String := ["@types/node", "typescript", "ts-node"]

/-- Constant `possibleConfigFiles` of config.ts lines 12-14. -/
def possibleConfigFiles (ignoreFile : Option String) : List String :=
  match ignoreFile with
  | some f => [f]
  | none => [".unusedignore", ".unusedrc.json"]

/-- Interface `Config` (config.ts lines 4-6). -/
structure Config where
  ignore : List String

/-- Function `loadConfig` (config.ts lines 8-39): start from a copy of the default
ignores and fold the candidate config files over it; `fsys` is what the
filesystem holds at each candidate path. -/
def loadConfig (ignoreFile : Option String) (fsys : String → CfgFileState) :
    Config :=
  ⟨(possibleConfigFiles ignoreFile).foldl
    (fun acc file => applyCfgFile acc (fsys file)) defaultIgnore⟩

/-! Helper lemmas. -/

theorem data_append (a b : String) : (a ++ b).data = a.data ++ b.data := by
  cases a
  cases b
  rfl

theorem mem_setAdd {s : List String} {x y : String} :
    x ∈ setAdd s y ↔ x ∈ s ∨ x = y := by
  unfold setAdd
  by_cases h : y ∈ s
  · rw [if_pos h]
    constructor
    · exact Or.inl
    · rintro (hx | rfl) <;> assumption
  · rw [if_neg h]
    simp

theorem setAdd_mono {s : List String} {x : String} (y : String) (h : x ∈ s) :
    x ∈ setAdd s y :=
  mem_setAdd.mpr (Or.inl h)

theorem mem_setAdd_self (s : List String) (y : String) : y ∈ setAdd s y :=
  mem_setAdd.mpr (Or.inr rfl)

theorem startsWith_iff_head {s : String} {a : Char} :
    jsStartsWith s (String.mk [a]) = true ↔ ∃ l, s.data = a :: l := by
  unfold jsStartsWith
  cases hd : s.data with
  | nil => simp [List.isPrefixOf]
  | cons c l =>
    simp only [List.isPrefixOf, List.isPrefixOf_nil_left, Bool.and_true]
    constructor
    · intro h
      exact ⟨l, by rw [beq_iff_eq] at h; rw [h]⟩
    · rintro ⟨l', hl⟩
      cases hl
      exact beq_self_eq_true a

/-- Predicate `goodId s`: the identifier does not look like a relative or absolute
path — it begins with neither `.` nor `/`. -/
def goodId (s : String) : Prop :=
  jsStartsWith s "." = false ∧ jsStartsWith s "/" = false

theorem goodId_of_head {s : String} {c : Char} {l : List Char}
    (h : s.data = c :: l) (h1 : c ≠ '.') (h2 : c ≠ '/') : goodId s := by
  constructor
  · cases hb : jsStartsWith s "." with
    | false => rfl
    | true =>
      obtain ⟨l', hl⟩ := startsWith_iff_head.mp hb
      rw [h] at hl
      cases hl
      exact absurd rfl h1
  · cases hb : jsStartsWith s "/" with
    | false => rfl
    | true =>
      obtain ⟨l', hl⟩ := startsWith_iff_head.mp hb
      rw [h] at hl
      cases hl
      exact absurd rfl h2

theorem goodId_of_at {s : String} (h : jsStartsWith s "@" = true) : goodId s := by
  obtain ⟨l, hl⟩ := startsWith_iff_head.mp h
  exact goodId_of_head hl (by decide) (by decide)

theorem head_ne_of_not_starts {s : String} {a c : Char} {l : List Char}
    (h : jsStartsWith s (String.mk [a]) = false) (hd : s.data = c :: l) :
    c ≠ a := by
  rintro rfl
  rw [startsWith_iff_head.mpr ⟨l, hd⟩] at h
  cases h

theorem splitChar_ne_nil (sep : Char) (l : List Char) : splitChar sep l ≠ [] := by
  cases l with
  | nil => simp [splitChar]
  | cons c cs =>
    unfold splitChar
    split <;> split <;> simp

theorem splitChar_cons_of_ne (sep c : Char) (cs : List Char) (h : c ≠ sep) :
    ∃ t ts, splitChar sep (c :: cs) = (c :: t) :: ts := by
  unfold splitChar
  cases hs : splitChar sep cs with
  | nil => exact absurd hs (splitChar_ne_nil sep cs)
  | cons seg segs =>
    refine ⟨seg, segs, ?_⟩
    show (if c = sep then [] :: seg :: segs else (c :: seg) :: segs) =
      (c :: seg) :: segs
    rw [if_neg h]

theorem goodId_pkgNameOf (imp : String)
    (h1 : jsStartsWith imp "." = false) (h2 : jsStartsWith imp "/" = false) :
    goodId (pkgNameOf imp) := by
  unfold pkgNameOf
  cases hat : jsStartsWith imp "@" with
  | true =>
    rw [if_pos rfl]
    obtain ⟨l, hl⟩ := startsWith_iff_head.mp hat
    obtain ⟨t, ts, hts⟩ := splitChar_cons_of_ne '/' '@' l (by decide)
    cases hts' : ts with
    | nil =>
      rw [show jsSplit imp '/' = [String.mk ('@' :: t)] by
        rw [jsSplit, hl, hts, hts']
        rfl]
      exact ⟨h1, h2⟩
    | cons u us =>
      rw [show jsSplit imp '/' =
          String.mk ('@' :: t) :: String.mk u :: us.map String.mk by
        rw [jsSplit, hl, hts, hts']
        rfl]
      exact goodId_of_head (c := '@')
        (l := t ++ "/".data ++ u)
        (by rw [data_append, data_append]; rfl) (by decide) (by decide)
  | false =>
    rw [if_neg (by simp)]
    cases hd : imp.data with
    | nil =>
      rw [show jsSplit imp '/' = [String.mk []] by rw [jsSplit, hd]; rfl]
      constructor <;> rfl
    | cons c cs =>
      have hc1 : c ≠ '.' := head_ne_of_not_starts (a := '.') h1 hd
      have hc2 : c ≠ '/' := head_ne_of_not_starts (a := '/') h2 hd
      obtain ⟨t, ts, hts⟩ := splitChar_cons_of_ne '/' c cs hc2
      rw [show jsSplit imp '/' = String.mk (c :: t) :: ts.map String.mk by
        rw [jsSplit, hd, hts]
        rfl]
      exact goodId_of_head (l := t) rfl hc1 hc2

theorem goodId_typesId (p : String) : goodId (typesId p) := by
  apply goodId_of_at
  apply startsWith_iff_head.mpr
  refine ⟨"types/".data ++
    replaceFirstChar '/' ['_', '_'] (replaceFirstChar '@' [] p.data), ?_⟩
  rw [typesId, data_append]
  rfl

theorem addDependency_good {set : List String} (imp : String)
    (hset : ∀ x ∈ set, goodId x) : ∀ x ∈ addDependency set imp, goodId x := by
  intro x hx
  unfold addDependency at hx
  by_cases h1 : jsStartsWith imp "." = true
  · rw [if_pos h1] at hx
    exact hset x hx
  · rw [if_neg h1] at hx
    by_cases h2 : jsStartsWith imp "/" = true
    · rw [if_pos h2] at hx
      exact hset x hx
    · rw [if_neg h2] at hx
      rcases mem_setAdd.mp hx with hx' | rfl
      · rcases mem_setAdd.mp hx' with hx'' | rfl
        · exact hset x hx''
        · exact goodId_pkgNameOf imp (Bool.eq_false_iff.mpr h1)
            (Bool.eq_false_iff.mpr h2)
      · exact goodId_typesId _

theorem foldl_addDependency_good (refs : List String) :
    ∀ set : List String, (∀ x ∈ set, goodId x) →
      ∀ x ∈ refs.foldl addDependency set, goodId x := by
  induction refs with
  | nil => intro set hset; exact hset
  | cons r rs ih =>
    intro set hset
    exact ih (addDependency set r) (addDependency_good r hset)

theorem foldl_scanFile_good (files : List SourceFile) :
    ∀ acc : List String × List String, (∀ x ∈ acc.1, goodId x) →
      ∀ x ∈ (files.foldl scanFile acc).1, goodId x := by
  induction files with
  | nil => intro acc hacc; exact hacc
  | cons f fs ih =>
    intro acc hacc
    apply ih
    unfold scanFile
    cases f.parsed with
    | ok refs => exact foldl_addDependency_good refs acc.1 hacc
    | error msg => exact hacc

theorem scanFiles_good (files : List SourceFile) :
    ∀ x ∈ (scanFiles files).1, goodId x :=
  foldl_scanFile_good files ([], []) (by simp)

theorem reactHeuristic_good {used : List String} (h : ∀ x ∈ used, goodId x) :
    ∀ x ∈ reactHeuristic used, goodId x := by
  intro x hx
  unfold reactHeuristic at hx
  split at hx
  · rcases mem_setAdd.mp hx with hx' | rfl
    · exact h x hx'
    · exact goodId_of_head (c := 'r') (l := "eact-dom".data) rfl
        (by decide) (by decide)
  · exact h x hx

theorem foldl_scopeStep_good (deps : List (String × String))
    (scopes : List String) :
    ∀ acc : List String, (∀ x ∈ acc, goodId x) →
      ∀ x ∈ deps.foldl (scopeStep scopes) acc, goodId x := by
  induction deps with
  | nil => intro acc hacc; exact hacc
  | cons p ps ih =>
    intro acc hacc
    apply ih
    intro x hx
    unfold scopeStep at hx
    split at hx
    · rcases mem_setAdd.mp hx with hx' | rfl
      · exact hacc x hx'
      · rename_i hcond
        exact goodId_of_at hcond.1
    · exact hacc x hx

theorem heuristics_good {used : List String} (deps : List (String × String))
    (h : ∀ x ∈ used, goodId x) : ∀ x ∈ heuristics used deps, goodId x := by
  unfold heuristics scopeHeuristic
  split
  · exact reactHeuristic_good h
  · exact foldl_scopeStep_good deps _ _ (reactHeuristic_good h)

theorem findUsed_fst (files : List SourceFile) (deps : List (String × String)) :
    (findUsedDependencies files deps).1 = heuristics (scanFiles files).1 deps :=
  rfl

theorem findUsed_snd (files : List SourceFile) (deps : List (String × String)) :
    (findUsedDependencies files deps).2 = (scanFiles files).2 :=
  rfl

theorem findUsed_good (files : List SourceFile) (deps : List (String × String)) :
    ∀ x ∈ (findUsedDependencies files deps).1, goodId x := by
  rw [findUsed_fst]
  exact heuristics_good deps (scanFiles_good files)

theorem reactHeuristic_mono {used : List String} {x : String} (h : x ∈ used) :
    x ∈ reactHeuristic used := by
  unfold reactHeuristic
  split
  · exact setAdd_mono _ h
  · exact h

theorem foldl_scopeStep_mono (deps : List (String × String))
    (scopes : List String) {x : String} :
    ∀ acc : List String, x ∈ acc → x ∈ deps.foldl (scopeStep scopes) acc := by
  induction deps with
  | nil => intro acc hacc; exact hacc
  | cons p ps ih =>
    intro acc hacc
    apply ih
    unfold scopeStep
    split
    · exact setAdd_mono _ hacc
    · exact hacc

theorem heuristics_mono {used : List String} (deps : List (String × String))
    {x : String} (h : x ∈ used) : x ∈ heuristics used deps := by
  unfold heuristics scopeHeuristic
  split
  · exact reactHeuristic_mono h
  · exact foldl_scopeStep_mono deps _ _ (reactHeuristic_mono h)

theorem mem_usedScopesOf {used : List String} {d : String} (hd : d ∈ used)
    (hat : jsStartsWith d "@" = true) : scopeOf d ∈ usedScopesOf used :=
  List.mem_map_of_mem scopeOf (List.mem_filter.mpr ⟨hd, hat⟩)

theorem foldl_scopeStep_mem (deps : List (String × String))
    (scopes : List String) {d : String} {v : String} (hd : (d, v) ∈ deps)
    (hat : jsStartsWith d "@" = true) (hsc : scopeOf d ∈ scopes) :
    ∀ acc : List String, d ∈ deps.foldl (scopeStep scopes) acc := by
  induction deps with
  | nil => cases hd
  | cons p ps ih =>
    intro acc
    rcases List.mem_cons.mp hd with rfl | hd'
    · apply foldl_scopeStep_mono ps scopes
      unfold scopeStep
      rw [if_pos ⟨hat, hsc⟩]
      exact mem_setAdd_self acc d
    · exact ih hd' _

theorem heuristics_scope_mem {used : List String}
    {deps : List (String × String)} {d0 d v : String}
    (h0 : d0 ∈ used) (hat0 : jsStartsWith d0 "@" = true)
    (hd : (d, v) ∈ deps) (hat : jsStartsWith d "@" = true)
    (hsc : scopeOf d = scopeOf d0) : d ∈ heuristics used deps := by
  unfold heuristics scopeHeuristic
  have hmem : scopeOf d0 ∈ usedScopesOf (reactHeuristic used) :=
    mem_usedScopesOf (reactHeuristic_mono h0) hat0
  rw [if_neg (by
    intro hemp
    rw [List.isEmpty_iff.mp hemp] at hmem
    cases hmem)]
  exact foldl_scopeStep_mem _ _ hd hat (hsc ▸ hmem) _

theorem foldl_scanFile_fst (files : List SourceFile) :
    ∀ (u la lb : List String),
      (files.foldl scanFile (u, la)).1 = (files.foldl scanFile (u, lb)).1 := by
  induction files with
  | nil => intro u la lb; rfl
  | cons f fs ih =>
    intro u la lb
    rw [List.foldl_cons, List.foldl_cons]
    cases hp : f.parsed with
    | ok refs => simp only [scanFile, hp]; exact ih _ _ _
    | error msg => simp only [scanFile, hp]; exact ih _ _ _

theorem foldl_scanFile_log_mono (files : List SourceFile) :
    ∀ (acc : List String × List String) (x : String), x ∈ acc.2 →
      x ∈ (files.foldl scanFile acc).2 := by
  induction files with
  | nil => intro acc x hx; exact hx
  | cons f fs ih =>
    intro acc x hx
    rw [List.foldl_cons]
    apply ih
    cases hp : f.parsed with
    | ok refs => simpa only [scanFile, hp] using hx
    | error msg =>
      simp only [scanFile, hp]
      exact List.mem_append_left _ hx

theorem replaceFirstChar_of_not_mem {pat : Char} {rep l : List Char}
    (h : ¬ pat ∈ l) : replaceFirstChar pat rep l = l := by
  induction l with
  | nil => rfl
  | cons c cs ih =>
    unfold replaceFirstChar
    rw [if_neg fun hc => h (List.mem_cons.mpr (Or.inl hc.symm)),
      ih fun hc => h (List.mem_cons_of_mem c hc)]

theorem applyCfgFile_extends (acc : List String) (st : CfgFileState) :
    ∃ t, applyCfgFile acc st = acc ++ t := by
  cases st with
  | absent => exact ⟨[], by simp [applyCfgFile]⟩
  | textFile c => exact ⟨_, rfl⟩
  | jsonIgnore arr =>
    cases arr with
    | some l => exact ⟨_, rfl⟩
    | none => exact ⟨[], by simp [applyCfgFile]⟩
  | unreadable => exact ⟨[], by simp [applyCfgFile]⟩

theorem foldl_applyCfgFile_extends (fsys : String → CfgFileState)
    (files : List String) :
    ∀ acc : List String, ∃ t,
      files.foldl (fun a file => applyCfgFile a (fsys file)) acc = acc ++ t := by
  induction files with
  | nil => intro acc; exact ⟨[], (List.append_nil acc).symm⟩
  | cons f fs ih =>
    intro acc
    obtain ⟨t1, ht1⟩ := applyCfgFile_extends acc (fsys f)
    obtain ⟨t2, ht2⟩ := ih (applyCfgFile acc (fsys f))
    exact ⟨t1 ++ t2, by rw [List.foldl_cons, ht2, ht1, List.append_assoc]⟩

theorem removeFromSection_eq (toRemove : List String)
    (old : Option (List (String × String))) :
    (old = none → removeFromSection toRemove old = none) ∧
    ∀ entries, old = some entries →
      removeFromSection toRemove old =
        (if entries.filter (fun p => ! shouldDelete toRemove p) = [] then none
         else some (entries.filter fun p => ! shouldDelete toRemove p)) := by
  cases old with
  | none => exact ⟨fun _ => rfl, fun entries h => (nomatch h)⟩
  | some es =>
    refine ⟨fun h => (nomatch h), fun entries h => ?_⟩
    cases Option.some.inj h
    show (if (es.filter fun p => ! shouldDelete toRemove p).isEmpty = true
          then none
          else some (es.filter fun p => ! shouldDelete toRemove p)) =
      (if es.filter (fun p => ! shouldDelete toRemove p) = [] then none
       else some (es.filter fun p => ! shouldDelete toRemove p))
    by_cases hk : es.filter (fun p => ! shouldDelete toRemove p) = []
    · rw [if_pos (by rw [hk]; rfl), if_pos hk]
    · rw [if_neg fun hemp => hk (List.isEmpty_iff.mp hemp), if_neg hk]

end UDC

/-! Claim theorems. -/

namespace UDC

/-- C6: a specifier that is a relative path (begins with `.`) or an absolute
path (begins with `/`) yields no identifier from the Normalizer, and no such
specifier is ever a member of the usage set — neither after the per-file
accumulation nor after both heuristic expansions. -/
theorem C6_no_path_identifiers :
    (∀ (set : List String) (imp : String),
        jsStartsWith imp "." = true ∨ jsStartsWith imp "/" = true →
        addDependency set imp = set) ∧
    ∀ (files : List SourceFile) (deps : List (String × String)) (s : String),
      jsStartsWith s "." = true ∨ jsStartsWith s "/" = true →
      s ∉ (scanFiles files).1 ∧ s ∉ (findUsedDependencies files deps).1 := by
  constructor
  · intro set imp h
    unfold addDependency
    by_cases h1 : jsStartsWith imp "." = true
    · rw [if_pos h1]
    · rcases h with h | h
      · exact absurd h h1
      · rw [if_neg h1, if_pos h]
  · intro files deps s hs
    constructor
    · intro hmem
      have hg := scanFiles_good files s hmem
      rcases hs with h | h
      · rw [hg.1] at h; cases h
      · rw [hg.2] at h; cases h
    · intro hmem
      have hg := findUsed_good files deps s hmem
      rcases hs with h | h
      · rw [hg.1] at h; cases h
      · rw [hg.2] at h; cases h

/-- Witness for C6 at a relative and an absolute specifier. -/
theorem C6_witness :
    addDependency ["x"] "./local" = ["x"] ∧
    "/abs" ∉ (findUsedDependencies [⟨"a.ts", .ok ["/abs", "x"]⟩] []).1 :=
  ⟨C6_no_path_identifiers.1 ["x"] "./local" (Or.inl (by decide)),
   (C6_no_path_identifiers.2 [⟨"a.ts", .ok ["/abs", "x"]⟩] [] "/abs"
     (Or.inr (by decide))).2⟩

/-- C7: a parse failure in one source file is absorbed — the failing file
contributes zero references to the usage set, a diagnostic naming the file is
logged, extraction continues over all remaining files, and `analyze` still
succeeds whenever the manifest exists. -/
theorem C7_parse_failure_absorbed (fs1 fs2 : List SourceFile) (p msg : String) :
    (scanFiles (fs1 ++ ⟨p, .error msg⟩ :: fs2)).1 = (scanFiles (fs1 ++ fs2)).1 ∧
    parseDiag p msg ∈ (scanFiles (fs1 ++ ⟨p, .error msg⟩ :: fs2)).2 ∧
    ∀ (opts : AnalyzerOptions) (pkg : Manifest) (files : List SourceFile),
      ∃ vs, analyze opts ⟨some pkg, files⟩ = .ok vs := by
  refine ⟨?_, ?_, ?_⟩
  · unfold scanFiles
    rw [List.foldl_append, List.foldl_append, List.foldl_cons]
    rw [show scanFile (fs1.foldl scanFile ([], [])) ⟨p, .error msg⟩ =
        ((fs1.foldl scanFile ([], [])).1,
         (fs1.foldl scanFile ([], [])).2 ++ [parseDiag p msg]) from rfl]
    rw [foldl_scanFile_fst fs2 _ _ (fs1.foldl scanFile ([], [])).2]
  · unfold scanFiles
    rw [List.foldl_append, List.foldl_cons]
    apply foldl_scanFile_log_mono
    show parseDiag p msg ∈
      (fs1.foldl scanFile ([], [])).2 ++ [parseDiag p msg]
    exact List.mem_append_right _ (List.mem_singleton.mpr rfl)
  · intro opts pkg files
    exact ⟨_, rfl⟩

/-- C8: with no manifest at the project root, `analyze` raises the
manifest-not-found error to the caller — no verdicts are produced — and the
scan command terminates with a non-zero exit signal. -/
theorem C8_manifest_not_found (opts : AnalyzerOptions) (files : List SourceFile) :
    analyze opts ⟨none, files⟩ = .error "package.json not found" ∧
    scanExitCode opts ⟨none, files⟩ = 1 :=
  ⟨rfl, rfl⟩

/-- C10: for every project and every ignore-file configuration — missing,
custom, or unparsable — the ignore list returned by `loadConfig` starts with
the baseline `@types/node`, `typescript`, `ts-node`; project-declared
entries are appended after this baseline, never replacing it. -/
theorem C10_baseline_ignores (ignoreFile : Option String)
    (fsys : String → CfgFileState) :
    (∃ rest, (loadConfig ignoreFile fsys).ignore = defaultIgnore ++ rest) ∧
    "@types/node" ∈ (loadConfig ignoreFile fsys).ignore ∧
    "typescript" ∈ (loadConfig ignoreFile fsys).ignore ∧
    "ts-node" ∈ (loadConfig ignoreFile fsys).ignore := by
  obtain ⟨rest, hrest⟩ :=
    foldl_applyCfgFile_extends fsys (possibleConfigFiles ignoreFile) defaultIgnore
  have hload : (loadConfig ignoreFile fsys).ignore = defaultIgnore ++ rest := hrest
  refine ⟨⟨rest, hload⟩, ?_, ?_, ?_⟩ <;>
    · rw [hload]
      apply List.mem_append_left
      decide

/-- C1: every verdict produced by `analyze` has `isUsed = true` iff the
dependency name is in the ignore set or in the usage set after heuristic
expansion; and a name in the ignore set gets the evidence list
`["(ignored)"]`, regardless of actual usage. -/
theorem C1_reconciler_verdict_iff (opts : AnalyzerOptions) (proj : Project)
    (deps : List (String × String)) (vs : List DependencyUsage)
    (hd : getDependencies opts.checkDevDeps proj = .ok deps)
    (ha : analyze opts proj = .ok vs) :
    ∀ v ∈ vs,
      (v.isUsed = true ↔ (v.name ∈ opts.ignore ∨
          v.name ∈ (findUsedDependencies proj.files deps).1)) ∧
      (v.name ∈ opts.ignore → v.filesUsedIn = ["(ignored)"]) := by
  have hvs : vs = deps.map fun p =>
      if p.1 ∈ opts.ignore then (⟨p.1, true, ["(ignored)"]⟩ : DependencyUsage)
      else ⟨p.1, decide (p.1 ∈ (findUsedDependencies proj.files deps).1), []⟩ := by
    unfold analyze at ha
    rw [hd] at ha
    exact (Except.ok.inj ha).symm
  subst hvs
  intro v hv
  rcases List.mem_map.mp hv with ⟨p, hp, rfl⟩
  by_cases hig : p.1 ∈ opts.ignore
  · simp [hig]
  · simp [hig]

/-- Witness for C1: a three-dependency project with one ignored entry and one
imported package. -/
theorem C1_witness :
    ((⟨"lodash", true, []⟩ : DependencyUsage).isUsed = true ↔
      ((⟨"lodash", true, []⟩ : DependencyUsage).name ∈ ["keep"] ∨
        (⟨"lodash", true, []⟩ : DependencyUsage).name ∈
          (findUsedDependencies [⟨"a.ts", .ok ["lodash"]⟩]
            [("keep", "1"), ("lodash", "1"), ("left", "1")]).1)) ∧
    ((⟨"lodash", true, []⟩ : DependencyUsage).name ∈ ["keep"] →
      (⟨"lodash", true, []⟩ : DependencyUsage).filesUsedIn = ["(ignored)"]) :=
  C1_reconciler_verdict_iff ⟨false, ["keep"]⟩
    ⟨some ⟨[("keep", "1"), ("lodash", "1"), ("left", "1")], [], [], []⟩,
     [⟨"a.ts", .ok ["lodash"]⟩]⟩
    [("keep", "1"), ("lodash", "1"), ("left", "1")]
    [⟨"keep", true, ["(ignored)"]⟩, ⟨"lodash", true, []⟩, ⟨"left", false, []⟩]
    rfl rfl ⟨"lodash", true, []⟩ (by decide)

/-- Counterexample to C5: a manifest whose only declared dependencies sit in
`peerDependencies` and `optionalDependencies` gets an empty verdict list even
with the dev flag set — those section kinds are never read by
`getDependencies`. -/
theorem C5_cex :
    analyze ⟨true, []⟩ ⟨some ⟨[], [], [("p", "*")], [("o", "*")]⟩, []⟩ =
      .ok [] := by
  rfl

/-- C5 as amended: `analyze` produces exactly one verdict per entry of the
computed dependency object — the `dependencies` section, merged with
`devDependencies` when `checkDevDeps` is set; `peerDependencies` and
`optionalDependencies` are not covered — in the manifest's declaration order,
and never fails once the manifest exists. -/
theorem C5_verdict_per_declared (opts : AnalyzerOptions) (pkg : Manifest)
    (files : List SourceFile) :
    ∃ vs, analyze opts ⟨some pkg, files⟩ = .ok vs ∧
      vs.map DependencyUsage.name =
        (depsObject opts.checkDevDeps pkg).map Prod.fst := by
  refine ⟨_, rfl, ?_⟩
  rw [List.map_map]
  apply List.map_congr_left
  intro p hp
  by_cases hig : p.1 ∈ opts.ignore <;> simp [hig, Function.comp]

/-- Counterexample to C2: the scoped specifier `@foo` has a single
`/`-segment, yet `addDependency` adds it (and its synthetic `@types`
identifier) to the usage set instead of returning none. -/
theorem C2_cex :
    "@foo" ∈ addDependency [] "@foo" ∧ "@types/foo" ∈ addDependency [] "@foo" := by
  decide

/-- C2 as amended: for a scoped specifier with fewer than two `/`-segments
the whole specifier is kept as the canonical identifier — the specifier and
its synthetic `@types` identifier are added to the usage set. -/
theorem C2_malformed_scoped_added (set : List String) (imp : String)
    (hat : jsStartsWith imp "@" = true)
    (hlen : (jsSplit imp '/').length < 2) :
    addDependency set imp = setAdd (setAdd set imp) (typesId imp) := by
  have hgood := goodId_of_at hat
  have hpkg : pkgNameOf imp = imp := by
    unfold pkgNameOf
    rw [if_pos hat]
    cases hsplit : jsSplit imp '/' with
    | nil => rfl
    | cons p0 rest =>
      cases rest with
      | nil => rfl
      | cons p1 rest2 =>
        rw [hsplit] at hlen
        simp at hlen
        omega
  unfold addDependency
  rw [if_neg (by rw [hgood.1]; exact Bool.false_ne_true),
    if_neg (by rw [hgood.2]; exact Bool.false_ne_true), hpkg]

/-- Witness for C2 as amended, at the specifier `@foo`. -/
theorem C2_witness :
    addDependency [] "@foo" = setAdd (setAdd [] "@foo") (typesId "@foo") :=
  C2_malformed_scoped_added [] "@foo" (by decide) (by decide)

/-- Counterexample to C3: `@acme/button` is declared and directly referenced,
`@acmefoo/bar` is declared and its name starts with the string `@acme`, yet
after heuristic expansion `@acmefoo/bar` is not in the usage set — the code
compares whole scope segments, not string prefixes. -/
theorem C3_cex :
    "@acme/button" ∈ (scanFiles [⟨"a.ts", .ok ["@acme/button"]⟩]).1 ∧
    jsStartsWith "@acmefoo/bar" "@acme" = true ∧
    "@acmefoo/bar" ∉ (findUsedDependencies [⟨"a.ts", .ok ["@acme/button"]⟩]
        [("@acme/button", "*"), ("@acmefoo/bar", "*")]).1 := by
  decide

/-- C3 as amended: if a declared dependency with scope segment `@s` (the text
before the first `/`) is in the usage set from direct references, then after
heuristic expansion every declared dependency whose scope segment equals `@s`
is in the usage set, and its verdict from `analyze` is `isUsed = true`, even
absent a direct reference to it. -/
theorem C3_scope_expansion (files : List SourceFile)
    (deps : List (String × String)) (d0 v0 d v : String)
    (hd0 : (d0, v0) ∈ deps) (h0 : d0 ∈ (scanFiles files).1)
    (hat0 : jsStartsWith d0 "@" = true)
    (hd : (d, v) ∈ deps) (hat : jsStartsWith d "@" = true)
    (hsc : scopeOf d = scopeOf d0) :
    d ∈ (findUsedDependencies files deps).1 ∧
    ∀ (opts : AnalyzerOptions) (proj : Project) (vs : List DependencyUsage),
      proj.files = files →
      getDependencies opts.checkDevDeps proj = .ok deps →
      analyze opts proj = .ok vs →
      ∀ w ∈ vs, w.name = d → w.isUsed = true := by
  have huse : d ∈ (findUsedDependencies files deps).1 := by
    rw [findUsed_fst]
    exact heuristics_scope_mem h0 hat0 hd hat hsc
  refine ⟨huse, ?_⟩
  intro opts proj vs hfiles hget ha w hw hname
  have hvs : vs = deps.map fun p =>
      if p.1 ∈ opts.ignore then (⟨p.1, true, ["(ignored)"]⟩ : DependencyUsage)
      else ⟨p.1, decide (p.1 ∈ (findUsedDependencies proj.files deps).1), []⟩ := by
    unfold analyze at ha
    rw [hget] at ha
    exact (Except.ok.inj ha).symm
  subst hvs
  rcases List.mem_map.mp hw with ⟨p, hp, rfl⟩
  by_cases hig : p.1 ∈ opts.ignore
  · simp [hig]
  · simp only [hig, if_neg, if_false]
    simp only [hig, ite_false] at hname ⊢
    have hpd : p.1 = d := hname
    rw [decide_eq_true_eq]
    rw [hpd, hfiles]
    exact huse

/-- Witness for C3 as amended: `@acme/icons` is declared but never referenced,
`@acme/button` is referenced, and `@acme/icons` ends up in the usage set. -/
theorem C3_witness :
    "@acme/icons" ∈ (findUsedDependencies [⟨"a.ts", .ok ["@acme/button"]⟩]
        [("@acme/button", "*"), ("@acme/icons", "*")]).1 :=
  (C3_scope_expansion [⟨"a.ts", .ok ["@acme/button"]⟩]
    [("@acme/button", "*"), ("@acme/icons", "*")]
    "@acme/button" "*" "@acme/icons" "*"
    (by decide) (by decide) (by decide) (by decide) (by decide) (by decide)).1

/-- Counterexample to C4: for the specifier `a@b` (canonical identifier
`a@b`, whose `@` is not leading) the code emits `@types/ab` — the JS
`replace` call removes the FIRST `@` anywhere — while the claimed
strip-the-leading-`@` rule would emit `@types/a@b`, which is absent. -/
theorem C4_cex :
    pkgNameOf "a@b" = "a@b" ∧
    "@types/ab" ∈ addDependency [] "a@b" ∧
    "@types/a@b" ∉ addDependency [] "a@b" ∧
    typesId "a@b" ≠ specTypesId "a@b" := by
  decide

/-- C4 as amended: every specifier that passes the path filters contributes
its canonical identifier and the synthetic identifier `typesId` (remove the
first `@` occurrence, replace the first `/` with `__`, add the `@types/`
prefix) to the usage set; on identifiers whose `@` is leading or absent —
every well-formed package name — `typesId` agrees with the specified
strip-the-leading-`@` rule; and the lodash scenario produces the expected
verdicts: `lodash` used, `@types/lodash` used, `leftpad` unused. -/
theorem C4_types_synthetic :
    (∀ (set : List String) (imp : String),
        jsStartsWith imp "." = false → jsStartsWith imp "/" = false →
        pkgNameOf imp ∈ addDependency set imp ∧
        typesId (pkgNameOf imp) ∈ addDependency set imp) ∧
    (∀ c : String, jsStartsWith c "@" = true ∨ ¬ '@' ∈ c.data →
        typesId c = specTypesId c) ∧
    analyze ⟨false, []⟩
      ⟨some ⟨[("lodash", "*"), ("@types/lodash", "*"), ("leftpad", "*")],
        [], [], []⟩,
       [⟨"a.ts", .ok ["lodash"]⟩]⟩ =
      .ok [⟨"lodash", true, []⟩, ⟨"@types/lodash", true, []⟩,
        ⟨"leftpad", false, []⟩] := by
  refine ⟨?_, ?_, rfl⟩
  · intro set imp h1 h2
    unfold addDependency
    rw [if_neg (by rw [h1]; exact Bool.false_ne_true),
      if_neg (by rw [h2]; exact Bool.false_ne_true)]
    exact ⟨setAdd_mono _ (mem_setAdd_self set (pkgNameOf imp)),
      mem_setAdd_self _ (typesId (pkgNameOf imp))⟩
  · intro c hc
    rcases hc with hat | hnm
    · obtain ⟨l, hl⟩ := startsWith_iff_head.mp hat
      unfold typesId specTypesId
      rw [if_pos hat, hl]
      show "@types/" ++ String.mk (replaceFirstChar '/' ['_', '_']
          (if '@' = '@' then [] ++ l else '@' :: replaceFirstChar '@' [] l)) = _
      rw [if_pos rfl]
      rfl
    · have hat : jsStartsWith c "@" = false := by
        cases hb : jsStartsWith c "@" with
        | false => rfl
        | true =>
          obtain ⟨l, hl⟩ := startsWith_iff_head.mp hb
          exact absurd (hl ▸ List.mem_cons_self '@' l) hnm
      unfold typesId specTypesId
      rw [if_neg (by rw [hat]; exact Bool.false_ne_true),
        replaceFirstChar_of_not_mem hnm]

/-- Witness for C4 as amended, at the specifier `lodash`. -/
theorem C4_witness :
    pkgNameOf "lodash" ∈ addDependency [] "lodash" ∧
    typesId (pkgNameOf "lodash") ∈ addDependency [] "lodash" :=
  C4_types_synthetic.1 [] "lodash" (by decide) (by decide)

/-- Counterexample to C9: the dependency `foo` is named for removal and
appears in the `dependencies` section, but its version value `""` is falsy,
so the truthiness guard of cleaner.ts line 32 skips the deletion and the
manifest is written back unchanged. -/
theorem C9_cex :
    removeDependencies ["foo"] ⟨some [("foo", "")], none, none, none⟩ =
      ⟨some [("foo", "")], none, none, none⟩ := by
  decide

/-- C9 as amended: for every non-empty removal list, each of the four
dependency sections is rewritten independently — an absent section stays
absent; a present section keeps exactly its entries that are not (named for
removal with a truthy version value), unchanged and in order; and the section
key is deleted when no entry remains. -/
theorem C9_remove_sections (toRemove : List String) (pkg : PkgJson)
    (h : ¬ toRemove = []) :
    ∀ old new, (old, new) ∈ sectionPairs pkg (removeDependencies toRemove pkg) →
      (old = none → new = none) ∧
      ∀ entries, old = some entries →
        new = (if entries.filter (fun p => ! shouldDelete toRemove p) = []
               then none
               else some (entries.filter fun p => ! shouldDelete toRemove p)) := by
  have hne : toRemove.isEmpty = false := by
    cases toRemove with
    | nil => exact absurd rfl h
    | cons a as => rfl
  rw [show removeDependencies toRemove pkg =
      ⟨removeFromSection toRemove pkg.dependencies,
       removeFromSection toRemove pkg.devDependencies,
       removeFromSection toRemove pkg.peerDependencies,
       removeFromSection toRemove pkg.optionalDependencies⟩ by
    unfold removeDependencies
    rw [if_neg (by rw [hne]; exact Bool.false_ne_true)]]
  intro old new hmem
  simp only [sectionPairs, List.mem_cons, List.not_mem_nil, or_false,
    Prod.mk.injEq] at hmem
  rcases hmem with ⟨rfl, rfl⟩ | ⟨rfl, rfl⟩ | ⟨rfl, rfl⟩ | ⟨rfl, rfl⟩ <;>
    exact removeFromSection_eq toRemove _

/-- Witness for C9 as amended: removing `leftpad` from a two-entry
`dependencies` section keeps exactly the other entry. -/
theorem C9_witness :
    (removeDependencies ["leftpad"]
        ⟨some [("leftpad", "1.0.0"), ("lodash", "4.0.0")],
         none, none, none⟩).dependencies =
      some [("lodash", "4.0.0")] := by
  have h := (C9_remove_sections ["leftpad"]
      ⟨some [("leftpad", "1.0.0"), ("lodash", "4.0.0")], none, none, none⟩
      (by decide)
      (some [("leftpad", "1.0.0"), ("lodash", "4.0.0")])
      ((removeDependencies ["leftpad"]
        ⟨some [("leftpad", "1.0.0"), ("lodash", "4.0.0")],
         none, none, none⟩).dependencies)
      (by decide)).2
      [("leftpad", "1.0.0"), ("lodash", "4.0.0")] rfl
  rw [h]
  decide

end UDC
